import Mathlib

/-!
Verification of the meqa swagger test engine core
(`src/mqgo/src/meqa/mqswag/db.go` and the `mqplan` test-run file).

The Go code is shallowly embedded: JSON values become the inductive
`Value`; Go maps (`map[string]interface{}`) become association lists
`List (String × Value)` updated in source order; Go `int`/`int64`
become `Int`; Go `float64` becomes `ℚ` (exact arithmetic over the
decimal constants the source uses); a Go function that can `panic`
or run out of ref-following depth returns an explicit result
constructor.  Functions of this repository that live in packages not
shipped here (`mqutil`, the `mqswag` swagger helpers) are modelled
from the specification and marked as such in their doc comments.
-/

set_option autoImplicit false

namespace Meqa

/-- A decoded JSON value (`interface{}` after `json.Unmarshal` or as built by
the generators).  `int` and `num` both exist because the generators produce
`int64` as well as `float64` values; `Schema.Matches` treats the two kinds
alike, exactly as the reflection dispatch in the source does. -/
inductive Value where
  | null : Value
  | bool : Bool → Value
  | int : Int → Value
  | num : ℚ → Value
  | str : String → Value
  | arr : List Value → Value
  | obj : List (String × Value) → Value

mutual

/-- Structural equality of two JSON values.  The source compares decoded
values with the Go `==`/`reflect` machinery on simple types (see the comment
in `MatchAllFields`: only simple search keys are compared); structural
equality is its total counterpart. -/
def Value.beq : Value → Value → Bool
  | .null, .null => true
  | .bool a, .bool b => a == b
  | .int a, .int b => a == b
  | .num a, .num b => a == b
  | .str a, .str b => a == b
  | .arr a, .arr b => Value.beqList a b
  | .obj a, .obj b => Value.beqPairs a b
  | _, _ => false

/-- Element-wise `Value.beq` on arrays. -/
def Value.beqList : List Value → List Value → Bool
  | [], [] => true
  | x :: xs, y :: ys => Value.beq x y && Value.beqList xs ys
  | _, _ => false

/-- Entry-wise `Value.beq` on objects (key order significant, as in the
association-list representation of a decoded map). -/
def Value.beqPairs : List (String × Value) → List (String × Value) → Bool
  | [], [] => true
  | (k, x) :: xs, (l, y) :: ys => k == l && Value.beq x y && Value.beqPairs xs ys
  | _, _ => false

end

/-- First value stored under key `k`, scanning in list order (Go map read). -/
def lookupA {α : Type} (m : List (String × α)) (k : String) : Option α :=
  match m with
  | [] => none
  | (k', v') :: rest => if k' = k then some v' else lookupA rest k

/-- Go map write `m[k] = v`: overwrite the existing entry for `k`, or append
a fresh one. -/
def setA {α : Type} (m : List (String × α)) (k : String) (v : α) : List (String × α) :=
  match m with
  | [] => [(k, v)]
  | (k', v') :: rest => if k' = k then (k, v) :: rest else (k', v') :: setA rest k v

/-- The fragment of `spec.Schema` (a swagger 2.0 JSON-Schema node) read by
`Schema.Matches`, `Schema.MatchesMap` and `DB.Insert` in
`src/mqgo/src/meqa/mqswag/db.go`: the `Type` string set, the `$ref`, the
`Required` list, the `Properties` map, and the `Items` node.  `hasItems`
models whether the `Items *SchemaOrArray` pointer is non-nil;
`itemsSchema`/`itemsSchemas` are its `Schema`/`Schemas` fields.  Fields the
embedded functions never touch (enum, format, bounds, ...) are omitted;
the numeric-bounds fragment used by the generators is `NumBounds` below. -/
inductive Schema where
  | mk : (type : List String) → (ref : Option String) → (required : List String) →
      (properties : List (String × Schema)) → (hasItems : Bool) →
      (itemsSchema : Option Schema) → (itemsSchemas : List Schema) → Schema

/-- The `Type` field (`spec.StringOrArray`). -/
def Schema.type : Schema → List String
  | .mk t _ _ _ _ _ _ => t

/-- The `$ref` field, already reduced to the referred definition name. -/
def Schema.ref : Schema → Option String
  | .mk _ r _ _ _ _ _ => r

/-- The `Required` field. -/
def Schema.required : Schema → List String
  | .mk _ _ r _ _ _ _ => r

/-- The `Properties` field. -/
def Schema.properties : Schema → List (String × Schema)
  | .mk _ _ _ p _ _ _ => p

/-- Whether the `Items` pointer is non-nil. -/
def Schema.hasItems : Schema → Bool
  | .mk _ _ _ _ h _ _ => h

/-- The `Items.Schema` field. -/
def Schema.itemsSchema : Schema → Option Schema
  | .mk _ _ _ _ _ s _ => s

/-- The `Items.Schemas` field. -/
def Schema.itemsSchemas : Schema → List Schema
  | .mk _ _ _ _ _ _ s => s

/-- The part of the swagger document the embedded code reads: the top-level
`Definitions` map. -/
structure Swagger where
  definitions : List (String × Schema)

/-- Modelled from the spec: `mqswag.Swagger.GetReferredSchema` (the mqswag
swagger helper file is not under `src/`).  Per the Schema Walker section,
`resolveRef` returns the referred definition name and target for a schema
carrying a `$ref`, resolving one level against the `Definitions` map; a
schema without a `$ref` yields nothing, and a `$ref` to a missing
definition is an error. -/
def getReferredSchema (sw : Swagger) (s : Schema) : Except Unit (Option (String × Schema)) :=
  match s.ref with
  | none => .ok none
  | some name =>
    match lookupA sw.definitions name with
    | some rs => .ok (some (name, rs))
    | none => .error ()

/-- Result of running `Schema.Matches`/`Schema.MatchesMap`: a boolean, an
aborted process (the `panic("")` in `MatchesMap`), or exhaustion of the
ref-following fuel (the Go original would recurse forever on a cyclic
`$ref` chain; `fuelOut` makes that explicit). -/
inductive MRes where
  | val : Bool → MRes
  | panicked : MRes
  | fuelOut : MRes
  deriving DecidableEq, Repr

/-- The `obj[requiredName] == nil` test of the required-fields loop in
`Schema.MatchesMap`: a Go map read yields `nil` both when the key is absent
and when it holds a JSON `null`. -/
def requiredMissing (required : List String) (m : List (String × Value)) : Bool :=
  required.any fun r =>
    match lookupA m r with
    | none => true
    | some .null => true
    | some _ => false

/-- Body of `Schema.MatchesMap` (db.go lines 79-101), parameterised by the
matcher used for property values.  The required-fields loop runs first: a
missing required field hits the literal `panic("")` in the source, embedded
as `.panicked`.  Then every field of the object whose key appears in
`Properties` must match the property schema; the first mismatch returns
false.  The fold keeps the first non-`val true` outcome, exactly like the
early `return`s of the source loop.  (The `obj == nil` guard of the source
cannot fire here: a decoded JSON object is never a nil map.) -/
def matchesMapAux (matcher : Schema → Value → MRes) (s : Schema)
    (m : List (String × Value)) : MRes :=
  if requiredMissing s.required m then .panicked
  else
    m.foldl
      (fun acc kv =>
        match acc with
        | .val true =>
          match lookupA s.properties kv.1 with
          | some p =>
            match matcher p kv.2 with
            | .val true => .val true
            | .val false => .val false
            | e => e
          | none => .val true
        | other => other)
      (.val true)

/-- `Schema.Matches` (db.go lines 22-76).  A `nil` object is compared against
`TYPE_NULL` before the `$ref` is resolved; otherwise the `$ref` is followed
(spending one unit of fuel, since a cyclic `$ref` chain would loop forever
in the source) and the reflection dispatch compares the value kind against
the `Type` set, with int and float kinds both accepted for
`integer`/`number`.  For arrays, a nil `Items` pointer would be dereferenced
by the source (`schema.Items.Schema`), embedded as `.panicked`; otherwise
`Items.Schema`, falling back to the first of `Items.Schemas`, must match
every element.  Objects additionally require `TYPE_OBJECT` and defer to
`MatchesMap`.  An unresolvable `$ref` logs and returns false. -/
def matchesV (sw : Swagger) : Nat → Schema → Value → MRes
  | 0, _, _ => .fuelOut
  | fuel + 1, s, v =>
    match v with
    | .null => .val (s.type.contains "null")
    | _ =>
      match getReferredSchema sw s with
      | .error _ => .val false
      | .ok (some (_, rs)) => matchesV sw fuel rs v
      | .ok none =>
        match v with
        | .null => .val (s.type.contains "null")
        | .bool _ => .val (s.type.contains "boolean")
        | .int _ => .val (s.type.contains "integer" || s.type.contains "number")
        | .num _ => .val (s.type.contains "integer" || s.type.contains "number")
        | .str _ => .val (s.type.contains "string")
        | .arr items =>
          if !(s.type.contains "array") then .val false
          else if s.hasItems = false then .panicked
          else
            match
              (match s.itemsSchema with
               | some is => some is
               | none => s.itemsSchemas.head?) with
            | none => .val false
            | some is =>
              items.foldl
                (fun acc item =>
                  match acc with
                  | .val true =>
                    match matchesV sw fuel is item with
                    | .val true => .val true
                    | .val false => .val false
                    | e => e
                  | other => other)
                (.val true)
        | .obj m =>
          if !(s.type.contains "object") then .val false
          else matchesMapAux (fun p pv => matchesV sw fuel p pv) s m

/-- `Schema.MatchesMap` as a standalone entry point (db.go lines 79-101),
with the same fuel discipline as `matchesV` for the recursive property
matches. -/
def matchesMap (sw : Swagger) (fuel : Nat) (s : Schema) (m : List (String × Value)) : MRes :=
  matchesMapAux (fun p pv => matchesV sw fuel p pv) s m

/-- `MatchFunc` (db.go line 118): checks whether the input criteria and an
input object match.  The Go criteria is an `interface{}`; it is embedded as
a `Value` as well, which is what every caller passes. -/
def MatchFunc : Type := Value → Value → Bool

/-- `MatchAllFields` (db.go lines 121-137): both criteria and existing must
be maps, and every criteria entry must equal the existing map entry under
the same key (a missing key reads as nil).  The source compares entries
with Go `==` and notes that the search keys are simple types; this is
embedded as structural equality. -/
def MatchAllFields : MatchFunc := fun criteria existing =>
  match criteria with
  | .obj cm =>
    match existing with
    | .obj em => cm.all fun kv => Value.beq ((lookupA em kv.1).getD .null) kv.2
    | _ => false
  | _ => false

/-- `MatchAlways` (db.go lines 139-141). -/
def MatchAlways : MatchFunc := fun _ _ => true

/-- Modelled from the spec: `mqutil.MapCombine` (the mqutil package is not
under `src/`).  Per the Update contract, `patch=true` merges `newObj` into
the stored map with keys in `newObj` overwriting: every entry of `src` is
written into `dst` in order, overwriting entries with the same key. -/
def mapCombine (dst src : List (String × Value)) : List (String × Value) :=
  src.foldl (fun d kv => setA d kv.1 kv.2) dst

/-- `SchemaDB` (db.go lines 105-109): a schema name, its schema, and the
linear list of stored objects. -/
structure SchemaDB where
  name : String
  schema : Schema
  objects : List Value

/-- `SchemaDB.Insert` (db.go lines 112-115): append to the object list. -/
def SchemaDB.insert (db : SchemaDB) (obj : Value) : SchemaDB :=
  { db with objects := db.objects ++ [obj] }

/-- Go slice read `arr[i]`; all uses below stay in range. -/
def listGet (l : List Value) (i : Nat) : Value := (l.get? i).getD .null

/-- Go slice write `arr[i] = v`. -/
def listSet (l : List Value) (i : Nat) (v : Value) : List Value := l.set i v

/-- Loop of `SchemaDB.Find` (db.go lines 144-155): append each match to
`result` and return as soon as `len(result) >= desiredCount`. -/
def findLoop (matchF : MatchFunc) (criteria : Value) (desiredCount : Int) :
    List Value → List Value → List Value
  | [], result => result
  | obj :: rest, result =>
    if matchF criteria obj then
      let result' := result ++ [obj]
      if (result'.length : Int) ≥ desiredCount then result'
      else findLoop matchF criteria desiredCount rest result'
    else findLoop matchF criteria desiredCount rest result

/-- `SchemaDB.Find` (db.go lines 144-155). -/
def SchemaDB.find (db : SchemaDB) (criteria : Value) (matchF : MatchFunc)
    (desiredCount : Int) : List Value :=
  findLoop matchF criteria desiredCount db.objects []

/-- Loop of `SchemaDB.Delete` (db.go lines 159-169): `i` walks the original
index range (the first argument counts the remaining iterations), a match
writes `db.Objects[i] = db.Objects[count]` into the shared array and bumps
`count`, and the loop breaks once `count >= desiredCount`. -/
def deleteLoop (matchF : MatchFunc) (criteria : Value) (desiredCount : Int) :
    Nat → Nat → List Value → Nat → List Value × Nat
  | 0, _, arr, count => (arr, count)
  | r + 1, i, arr, count =>
    if matchF criteria (listGet arr i) then
      let arr' := listSet arr i (listGet arr count)
      let count' := count + 1
      if (count' : Int) ≥ desiredCount then (arr', count')
      else deleteLoop matchF criteria desiredCount r (i + 1) arr' count'
    else deleteLoop matchF criteria desiredCount r (i + 1) arr count

/-- `SchemaDB.Delete` (db.go lines 159-172): run the loop over the whole
list, then truncate `db.Objects = db.Objects[count:]` and return `count`. -/
def SchemaDB.delete (db : SchemaDB) (criteria : Value) (matchF : MatchFunc)
    (desiredCount : Int) : Int × SchemaDB :=
  let (arr, count) := deleteLoop matchF criteria desiredCount db.objects.length 0 db.objects 0
  ((count : Int), { db with objects := arr.drop count })

/-- Loop of `SchemaDB.Update` (db.go lines 176-193): a matching entry that
is not a map is skipped; a matching map is merged in place (`patch`) or
replaced by `newObj`; the loop breaks once `count >= desiredCount`. -/
def updateLoop (matchF : MatchFunc) (criteria : Value) (newObj : List (String × Value))
    (desiredCount : Int) (patch : Bool) :
    Nat → Nat → List Value → Nat → List Value × Nat
  | 0, _, arr, count => (arr, count)
  | r + 1, i, arr, count =>
    if matchF criteria (listGet arr i) then
      match listGet arr i with
      | .obj m =>
        let arr' :=
          if patch then listSet arr i (.obj (mapCombine m newObj))
          else listSet arr i (.obj newObj)
        let count' := count + 1
        if (count' : Int) ≥ desiredCount then (arr', count')
        else updateLoop matchF criteria newObj desiredCount patch r (i + 1) arr' count'
      | _ => updateLoop matchF criteria newObj desiredCount patch r (i + 1) arr count
    else updateLoop matchF criteria newObj desiredCount patch r (i + 1) arr count

/-- `SchemaDB.Update` (db.go lines 175-196): run the loop, then execute the
source's `db.Objects = db.Objects[count:]` truncation and return `count`. -/
def SchemaDB.update (db : SchemaDB) (criteria : Value) (matchF : MatchFunc)
    (newObj : List (String × Value)) (desiredCount : Int) (patch : Bool) : Int × SchemaDB :=
  let (arr, count) :=
    updateLoop matchF criteria newObj desiredCount patch db.objects.length 0 db.objects 0
  ((count : Int), { db with objects := arr.drop count })

/-- Error outcomes of `DB.Insert`: the "object and schema doesn't match"
error, or an abort propagated from `Matches`. -/
inductive InsertErr where
  | mismatch : InsertErr
  | panicked : InsertErr
  | fuelOut : InsertErr
  deriving DecidableEq, Repr

/-- `DB` (db.go lines 198-202): the name-to-SchemaDB map and the swagger
document.  The mutex only serialises the public operations and is dropped
from the sequential embedding. -/
structure DB where
  schemas : List (String × SchemaDB)
  swagger : Swagger

/-- `DB.GetSchema` (db.go lines 215-222). -/
def DB.getSchema (db : DB) (name : String) : Option Schema :=
  match lookupA db.schemas name with
  | none => none
  | some sdb => some sdb.schema

/-- `DB.Insert` (db.go lines 224-236): a missing `SchemaDB` is first created
lazily from the given spec schema; then the object is checked against the
stored schema with `Matches`, a failed check returns the mismatch error,
and a passed check appends the object to the stored list. -/
def DB.insert (db : DB) (fuel : Nat) (name : String) (schema : Schema) (obj : Value) :
    Option InsertErr × DB :=
  let (schemas1, sdb) :=
    match lookupA db.schemas name with
    | none => (setA db.schemas name ⟨name, schema, []⟩, (⟨name, schema, []⟩ : SchemaDB))
    | some sdb => (db.schemas, sdb)
  match matchesV db.swagger fuel sdb.schema obj with
  | .val true => (none, ⟨setA schemas1 name (sdb.insert obj), db.swagger⟩)
  | .val false => (some .mismatch, ⟨schemas1, db.swagger⟩)
  | .panicked => (some .panicked, ⟨schemas1, db.swagger⟩)
  | .fuelOut => (some .fuelOut, ⟨schemas1, db.swagger⟩)

/-- `DB.Find` (db.go lines 238-246): a missing name yields nil. -/
def DB.find (db : DB) (name : String) (criteria : Value) (matchF : MatchFunc)
    (desiredCount : Int) : List Value :=
  match lookupA db.schemas name with
  | none => []
  | some sdb => sdb.find criteria matchF desiredCount

/-- `DB.Delete` (db.go lines 248-256): a missing name deletes nothing. -/
def DB.delete (db : DB) (name : String) (criteria : Value) (matchF : MatchFunc)
    (desiredCount : Int) : Int × DB :=
  match lookupA db.schemas name with
  | none => (0, db)
  | some sdb =>
    let (n, sdb') := sdb.delete criteria matchF desiredCount
    (n, { db with schemas := setA db.schemas name sdb' })

/-- `DB.Update` (db.go lines 258-266): a missing name updates nothing. -/
def DB.update (db : DB) (name : String) (criteria : Value) (matchF : MatchFunc)
    (newObj : List (String × Value)) (desiredCount : Int) (patch : Bool) : Int × DB :=
  match lookupA db.schemas name with
  | none => (0, db)
  | some sdb =>
    let (n, sdb') := sdb.update criteria matchF newObj desiredCount patch
    (n, { db with schemas := setA db.schemas name sdb' })

/-- The numeric-bounds fragment of `spec.Schema` read by `generateFloat`
and `generateInt` (part_000 lines 964-1011): `Minimum`, `Maximum` and the
exclusive flags.  Go `float64` values are embedded as exact rationals, so
the literal `0.01` becomes `1/100`. -/
structure NumBounds where
  minimum : Option ℚ
  maximum : Option ℚ
  exclusiveMinimum : Bool
  exclusiveMaximum : Bool

/-- Go conversion `int64(f)` applied to a finite float: truncation toward
zero. -/
def goInt64 (q : ℚ) : ℤ := if 0 ≤ q then ⌊q⌋ else ⌈q⌉

/-- The `realmin` local of `generateFloat`: the minimum, shifted up by 0.01
when exclusive, and 0 when absent. -/
def realMin (s : NumBounds) : ℚ :=
  match s.minimum with
  | some m => if s.exclusiveMinimum then m + 1/100 else m
  | none => 0

/-- The `realmax` local of `generateFloat`: the maximum, shifted down by
0.01 when exclusive, and 0 when absent. -/
def realMax (s : NumBounds) : ℚ :=
  match s.maximum with
  | some m => if s.exclusiveMaximum then m - 1/100 else m
  | none => 0

/-- `generateFloat` (part_000 lines 964-994) with the `rand.Float64()` draw
`r ∈ [0,1)` passed explicitly.  When `realmin >= realmax` the source widens
the range: both bounds absent gives `[-1,1)`; a present minimum widens the
maximum by `|realmin|`; an otherwise-present maximum widens the minimum by
`|realmax|`.  The final `else` of the source (the conflicting-bounds
`ErrInvalid` return) is unreachable — it would need both bounds absent,
which the first arm already captures — so this embedding, like the source
signature, keeps the error channel but never uses it. -/
def generateFloat (s : NumBounds) (r : ℚ) : Except Unit ℚ :=
  if realMin s ≥ realMax s then
    match s.minimum, s.maximum with
    | none, none => .ok (r * (1 - -1) + -1)
    | some _, _ => .ok (r * ((realMin s + |realMin s|) - realMin s) + realMin s)
    | none, some _ => .ok (r * (realMax s - (realMax s - |realMax s|)) + (realMax s - |realMax s|))
  else .ok (r * (realMax s - realMin s) + realMin s)

/-- `generateInt` (part_000 lines 996-1011): install the default maximum
10000 when both bounds are absent, draw a float with the same bounds,
truncate, and add 1 if the result does not exceed the truncated minimum. -/
def generateInt (s : NumBounds) (r : ℚ) : Except Unit ℤ :=
  let s1 := if s.maximum.isNone && s.minimum.isNone then { s with maximum := some 10000 } else s
  match generateFloat s1 r with
  | .error e => .error e
  | .ok f =>
    let i := goInt64 f
    .ok (match s1.minimum with
         | some m => if i ≤ goInt64 m then i + 1 else i
         | none => i)

/-- Method-name constant `mqswag.MethodGet` as used by the test code. -/
def MethodGet : String := "get"

/-- Method-name constant `mqswag.MethodPut`. -/
def MethodPut : String := "put"

/-- Method-name constant `mqswag.MethodPost`. -/
def MethodPost : String := "post"

/-- Method-name constant `mqswag.MethodPatch`. -/
def MethodPatch : String := "patch"

/-- Method-name constant `mqswag.MethodDelete`. -/
def MethodDelete : String := "delete"

/-- `ClassFail` (part_000 line 28). -/
def ClassFail : String := "fail"

/-- `ExpectStatus` (part_000 line 32). -/
def ExpectStatus : String := "status"

/-- `ExpectBody` (part_000 line 33). -/
def ExpectBody : String := "body"

/-- Modelled from the spec: `mqswag.MeqaTag` (the tag parser file is not
under `src/`) — the `(class, property, operation)` triple parsed from a
`<meqa ...>` annotation; the test code only reads these fields.  `cls`
stands for the Go field `Class`, whose lower-case name is a Lean
keyword. -/
structure MeqaTag where
  cls : String
  property : String
  operation : String

/-- The fragment of `spec.Parameter` read by `AddBasicComparison`: the `In`
location field. -/
structure ParamSpec where
  In : String

/-- `Comparison` (part_000 lines 61-66): the per-step ledger row.  Nil Go
maps are `none`; maps created by `GetMapByOp` are `some` association
lists. -/
structure Comparison where
  old : Option (List (String × Value))
  oldUsed : Option (List (String × Value))
  new : Option (List (String × Value))
  schema : Option Schema

/-- `Comparison.GetMapByOp` (part_000 lines 68-80): a get selects the old
map, creating `old` and `oldUsed` together when `old` is nil; any other
operation selects the new map, creating it when nil.  The source hands out
the selected map by pointer; the embedding returns the updated Comparison
together with the selector (true = old map, false = new map). -/
def Comparison.getMapByOp (comp : Comparison) (op : String) : Comparison × Bool :=
  if op = MethodGet then
    match comp.old with
    | none => ({ comp with old := some [], oldUsed := some [] }, true)
    | some _ => (comp, true)
  else
    match comp.new with
    | none => ({ comp with new := some [] }, false)
    | some _ => (comp, false)

/-- Contents of the map selected by `GetMapByOp`. -/
def Comparison.selected (comp : Comparison) (useOld : Bool) : List (String × Value) :=
  if useOld then comp.old.getD [] else comp.new.getD []

/-- Write back through the pointer returned by `GetMapByOp`. -/
def Comparison.writeSelected (comp : Comparison) (useOld : Bool)
    (m : List (String × Value)) : Comparison :=
  if useOld then { comp with old := some m } else { comp with new := some m }

/-- `Comparison.SetForOp` (part_000 lines 82-98).  The source declares
`var newComp *Comparison` (starting nil) and returns it; but the collision
branch creates the fresh Comparison with `newComp := &Comparison{...}` — a
short variable declaration that shadows the outer `newComp` — so the fresh
object never escapes the branch and the function always returns nil.  The
embedding reproduces this: the fresh Comparison is built (`_freshFilled`)
and dropped, and the second component of the result, the returned pointer,
is always `none`.  For a get, `comp.oldUsed[key]` is then set to `m[key]`,
which equals the stored value in both branches. -/
def Comparison.setForOp (comp : Comparison) (op key : String) (v : Value) :
    Comparison × Option Comparison :=
  let (c1, useOld) := comp.getMapByOp op
  let m := c1.selected useOld
  if (lookupA m key).isNone then
    let c2 := c1.writeSelected useOld (setA m key v)
    let c3 :=
      if op = MethodGet
      then { c2 with oldUsed := some (setA (c2.oldUsed.getD []) key v) }
      else c2
    (c3, none)
  else
    let fresh : Comparison := ⟨none, none, none, c1.schema⟩
    let (fresh1, fUseOld) := fresh.getMapByOp op
    let _freshFilled := fresh1.writeSelected fUseOld (setA (fresh1.selected fUseOld) key v)
    let c3 :=
      if op = MethodGet
      then { c1 with oldUsed := some (setA (c1.oldUsed.getD []) key v) }
      else c1
    (c3, none)

/-- The fields of `mqplan.Test` read by the embedded functions: the step
name, the five parameter bags of `TestParams`, and the per-class
comparison ledger.  Runtime fields the embedded fragments never touch
(db, op, resp, tag, Expect, ...) are omitted; the expectation map is
passed to the result-processing fragment explicitly. -/
structure Test where
  name : String
  pathParams : List (String × Value)
  queryParams : List (String × Value)
  headerParams : List (String × Value)
  formParams : List (String × Value)
  bodyParams : Option Value
  comparisons : List (String × List Comparison)

/-- Modelled from the spec: `mqswag.Swagger.FindSchemaByName` (not under
`src/`) — look the class name up among the top-level definitions. -/
def findSchemaByName (sw : Swagger) (name : String) : Option Schema :=
  lookupA sw.definitions name

/-- `Test.AddBasicComparison` (part_000 lines 165-204): without a parameter
spec, or without a tag carrying both class and property, nothing is
recorded.  The operation is the tag operation when present, else put for
formData/body parameters and get otherwise.  With a non-empty ledger list
for the class, `SetForOp` runs on its last element and the returned fresh
comparison — always nil, see `Comparison.setForOp` — would be appended
were it ever non-nil; otherwise a fresh comparison seeded with the class
schema is filled via `SetForOp` and appended. -/
def Test.addBasicComparison (t : Test) (sw : Swagger) (tag : Option MeqaTag)
    (paramSpec : Option ParamSpec) (data : Value) : Test :=
  match paramSpec with
  | none => t
  | some ps =>
    match tag with
    | none => t
    | some tg =>
      if tg.cls.isEmpty || tg.property.isEmpty then t
      else
        let op :=
          if tg.operation.isEmpty then
            (if ps.In = "formData" ∨ ps.In = "body" then MethodPut else MethodGet)
          else tg.operation
        match lookupA t.comparisons tg.cls with
        | some (c0 :: cs) =>
          let list := c0 :: cs
          let last := list.getLast (by simp)
          let (last', newComp) := last.setForOp op tg.property data
          let list' := list.dropLast ++ [last']
          let listFinal :=
            match newComp with
            | some nc => list' ++ [nc]
            | none => list'
          { t with comparisons := setA t.comparisons tg.cls listFinal }
        | _ =>
          let comp : Comparison := ⟨none, none, none, findSchemaByName sw tg.cls⟩
          let (comp', _) := comp.setForOp op tg.property data
          let cmps := setA t.comparisons tg.cls ((lookupA t.comparisons tg.cls).getD [] ++ [comp'])
          { t with comparisons := cmps }

/-- Go read `m[k]` of a possibly-nil map, combined with the `!= nil` test
every caller performs: a nil map, an absent key and a stored JSON null all
read as nil. -/
def goMapRead (m : Option (List (String × Value))) (k : String) : Option Value :=
  match m with
  | none => none
  | some l =>
    match lookupA l k with
    | some .null => none
    | some v => some v
    | none => none

/-- Inner loop body of `Test.GetParamFromComparison` (part_000 lines
328-335): within one comparison the new map is consulted before the old
one, each subject to the any/new/old filter. -/
def compParamHit (name whereS : String) (comp : Comparison) : Option Value :=
  let vnew := goMapRead comp.new name
  let vold := goMapRead comp.old name
  if vnew.isSome ∧ (whereS = "any" ∨ whereS = "new") then vnew
  else if vold.isSome ∧ (whereS = "any" ∨ whereS = "old") then vold
  else none

/-- First hit over one comparison list. -/
def firstHitList (name whereS : String) : List Comparison → Option Value
  | [] => none
  | c :: rest =>
    match compParamHit name whereS c with
    | some v => some v
    | none => firstHitList name whereS rest

/-- First hit over the per-class ledger.  The source ranges over a Go map,
whose iteration order is unspecified; the embedding fixes the
association-list order, and no theorem below depends on an interleaving
between classes. -/
def firstHitClasses (name whereS : String) : List (String × List Comparison) → Option Value
  | [] => none
  | (_, comps) :: rest =>
    match firstHitList name whereS comps with
    | some v => some v
    | none => firstHitClasses name whereS rest

/-- `Test.GetParamFromComparison` (part_000 lines 326-338). -/
def Test.getParamFromComparison (t : Test) (name whereS : String) : Option Value :=
  firstHitClasses name whereS t.comparisons

/-- Modelled from the spec: `TestHistory.GetTest` (the history container is
not under `src/`) — the ordered list of completed tests, looked up by
step name. -/
def getTest (h : List Test) (name : String) : Option Test :=
  h.find? (fun t => t.name == name)

/-- `strings.Index` for a one-character needle: index of the first
occurrence, or -1. -/
def goIndexOf (s : List Char) (c : Char) : Int :=
  match s with
  | [] => -1
  | x :: rest =>
    if x = c then 0
    else
      let r := goIndexOf rest c
      if r < 0 then -1 else r + 1

/-- Go slicing `s[a:b]` (callers stay within `0 ≤ a ≤ b ≤ len`). -/
def goSlice (s : List Char) (a b : Int) : List Char :=
  (s.drop a.toNat).take (b - a).toNat

/-- Accumulator loop of `strings.Split` for a one-character separator. -/
def goSplitAux (sep : Char) : List Char → List Char → List (List Char)
  | [], cur => [cur.reverse]
  | c :: rest, cur =>
    if c = sep then cur.reverse :: goSplitAux sep rest []
    else goSplitAux sep rest (c :: cur)

/-- `strings.Split` around a one-character separator. -/
def goSplit (sep : Char) (s : List Char) : List (List Char) := goSplitAux sep s []

/-- `StringParamsResolveWithHistory` (part_000 lines 639-654): locate the
first "<" and the first ">"; when the ">" comes later, split the text
between them on "."; exactly two parts name a prior test and a field,
resolved through that test with `where = "any"`; a malformed reference, an
unknown test or an unresolved field yields nil. -/
def stringParamsResolveWithHistory (str : String) (h : List Test) : Option Value :=
  let cs := str.data
  let bIdx := goIndexOf cs '<'
  let eIdx := goIndexOf cs '>'
  if eIdx > bIdx then
    match goSplit '.' (goSlice cs (bIdx + 1) eIdx) with
    | [stepName, fieldName] =>
      match getTest h (String.mk stepName) with
      | some t => t.getParamFromComparison (String.mk fieldName) "any"
      | none => none
    | _ => none
  else none

/-- One value of a parameter bag as rewritten by the resolution loops: a
string value that resolves is replaced by the resolved value, anything
else is kept. -/
def resolveParamValue (h : List Test) (v : Value) : Value :=
  match v with
  | .str s =>
    match stringParamsResolveWithHistory s h with
    | some r => r
    | none => v
  | _ => v

/-- `MapParamsResolveWithHistory` (part_000 lines 656-664): each top-level
string value that resolves is replaced in place; keys and everything else
are kept. -/
def mapParamsResolveWithHistory (m : List (String × Value)) (h : List Test) :
    List (String × Value) :=
  m.map fun kv => (kv.1, resolveParamValue h kv.2)

/-- `ArrayParamsResolveWithHistory` (part_000 lines 666-676): map elements
have their top-level values resolved; string elements that resolve are
replaced; other elements are kept. -/
def arrayParamsResolveWithHistory (a : List Value) (h : List Test) : List Value :=
  a.map fun p =>
    match p with
    | .obj m => .obj (mapParamsResolveWithHistory m h)
    | _ => resolveParamValue h p

/-- `Test.ResolveHistoryParameters` (part_000 lines 678-693): resolve the
four non-body bags at their top level, then the body according to its
shape — a map by its top-level values, an array by
`ArrayParamsResolveWithHistory`, a plain string by itself; any other body
is untouched. -/
def Test.resolveHistoryParameters (t : Test) (h : List Test) : Test :=
  let t1 := { t with
    pathParams := mapParamsResolveWithHistory t.pathParams h,
    formParams := mapParamsResolveWithHistory t.formParams h,
    headerParams := mapParamsResolveWithHistory t.headerParams h,
    queryParams := mapParamsResolveWithHistory t.queryParams h }
  match t.bodyParams with
  | some (.obj m) => { t1 with bodyParams := some (.obj (mapParamsResolveWithHistory m h)) }
  | some (.arr a) => { t1 with bodyParams := some (.arr (arrayParamsResolveWithHistory a h)) }
  | some (.str s) =>
    match stringParamsResolveWithHistory s h with
    | some r => { t1 with bodyParams := some r }
    | none => t1
  | _ => t1

/-- The success flag computed by `Test.ProcessResult` before the
expectation check (part_000 lines 367-372): status in [200,300),
overridden to failure when the matched response description carries a
fail-class meqa tag. -/
def respSuccess (status : Int) (respTag : Option MeqaTag) : Bool :=
  let success0 := decide (200 ≤ status) && decide (status < 300)
  match respTag with
  | some tg => if tg.cls = ClassFail then false else success0
  | none => success0

/-- Modelled from the spec: `mqutil.InterfaceEquals` (mqutil is not under
`src/`).  The expectation check requires deep structural equality to the
decoded body, not mere subset; an absent expected body — a nil criteria —
passes, since a matching status alone makes the expectation check pass. -/
def interfaceEquals (criteria existing : Option Value) : Bool :=
  match criteria with
  | none => true
  | some c =>
    match existing with
    | none => false
    | some e => Value.beq c e

/-- Outcome of the expectation fragment of `Test.ProcessResult`:
fall-through to the schema checks, the EXPECT error returned when the body
comparison fails, or the EXPECT error returned when `testSuccess` is
false. -/
inductive ExpectOutcome where
  | passed : ExpectOutcome
  | failedBody : ExpectOutcome
  | failedStatus : ExpectOutcome
  deriving DecidableEq, Repr

/-- The `testSuccess` value after the status portion of the expectation
check in `Test.ProcessResult` (part_000 lines 374-381): the literal "fail"
inverts the computed success, an integer requires an exact status match,
and any other `expect.status` value leaves `testSuccess` at the computed
success. -/
def expectTestSuccess (es : Value) (status : Int) (respTag : Option MeqaTag) : Bool :=
  match es with
  | .str str => if str = "fail" then !(respSuccess status respTag) else respSuccess status respTag
  | .int n => decide (n = status)
  | _ => respSuccess status respTag

/-- Expectation fragment of `Test.ProcessResult`, continued: with
`expect.status` absent, `testSuccess` stays at the computed success and
decides the bottom EXPECT return alone; with it present,
`expectTestSuccess` is the status check, a passing check runs the body
comparison whose failure returns the EXPECT error, and a failing check
reaches the bottom EXPECT return. -/
def processResultExpect (expect : Option (List (String × Value))) (status : Int)
    (respTag : Option MeqaTag) (resultObj : Option Value) : ExpectOutcome :=
  match goMapRead expect ExpectStatus with
  | none => if respSuccess status respTag then .passed else .failedStatus
  | some es =>
    if expectTestSuccess es status respTag then
      if interfaceEquals (goMapRead expect ExpectBody) resultObj then .passed
      else .failedBody
    else .failedStatus

/-- A swagger document with no definitions, for concrete runs. -/
def swEmpty : Swagger := ⟨[]⟩

/-- A plain object schema with no constraints. -/
def schemaObjEx : Schema := .mk ["object"] none [] [] false none []

/-- An object schema requiring the field "a". -/
def schemaRequiredA : Schema := .mk ["object"] none ["a"] [] false none []

/-- The stored object of the Update scenario: the map with a=0 and c=3. -/
def objAC : Value := .obj [("a", .int 0), ("c", .int 3)]

/-- A DB holding exactly `objAC` under the name "Pet". -/
def dbUpdateEx : DB := ⟨[("Pet", ⟨"Pet", schemaObjEx, [objAC]⟩)], swEmpty⟩

/-- Two distinct stored map objects. -/
def objId1 : Value := .obj [("id", .int 1)]

/-- Second stored map object. -/
def objId2 : Value := .obj [("id", .int 2)]

/-- A DB holding `objId1` then `objId2` under the name "Pet". -/
def dbTwoEx : DB := ⟨[("Pet", ⟨"Pet", schemaObjEx, [objId1, objId2]⟩)], swEmpty⟩

/-- A DB with no schemas at all. -/
def dbEmptyEx : DB := ⟨[], swEmpty⟩

/-- Objects stored under a name (empty when the name is absent). -/
def storedObjects (db : DB) (n : String) : List Value :=
  match lookupA db.schemas n with
  | none => []
  | some sdb => sdb.objects

/-- The schema `DB.Insert` actually checks the object against: the stored
one when the name exists, else the given spec schema installed by the lazy
creation. -/
def effectiveSchema (db : DB) (name : String) (schema : Schema) : Schema :=
  match lookupA db.schemas name with
  | none => schema
  | some sdb => sdb.schema

/-- The existing last Comparison for class "C": property "p" is already set
in its new map. -/
def compNewP1 : Comparison := ⟨none, none, some [("p", .int 1)], none⟩

/-- A test whose ledger for class "C" holds exactly `compNewP1`. -/
def testC6 : Test := ⟨"t", [], [], [], [], none, [("C", [compNewP1])]⟩

/-- The prior step "s" whose ledger resolves field "f" to 42 through its
new map. -/
def stepS : Test := ⟨"s", [], [], [], [], none, [("C", [⟨none, none, some [("f", .int 42)], none⟩])]⟩

/-- A one-step history holding `stepS`. -/
def histEx : List Test := [stepS]

/-- A test whose body nests the back-reference one map deeper than the
resolver walks. -/
def testNested : Test :=
  ⟨"t2", [], [], [], [], some (.obj [("a", .obj [("b", .str "<s.f>")])]), []⟩

/-- A test carrying the back-reference at the top level of its query bag. -/
def testQueryRef : Test := ⟨"t3", [], [("id", .str "<s.f>")], [], [], none, []⟩

theorem lookupA_setA_self {α : Type} (m : List (String × α)) (k : String) (v : α) :
    lookupA (setA m k v) k = some v := by
  induction m with
  | nil => simp [setA, lookupA]
  | cons hd tl ih =>
    by_cases h : hd.1 = k <;> simp [setA, lookupA, h, ih]

theorem lookupA_setA_ne {α : Type} (m : List (String × α)) (k k' : String) (v : α)
    (h : k ≠ k') : lookupA (setA m k v) k' = lookupA m k' := by
  induction m with
  | nil => simp [setA, lookupA, h]
  | cons hd tl ih =>
    by_cases hh : hd.1 = k
    · simp [setA, lookupA, hh, h]
    · simp [setA, lookupA, hh, h, ih]

theorem setA_setA {α : Type} (m : List (String × α)) (k : String) (v w : α) :
    setA (setA m k v) k w = setA m k w := by
  induction m with
  | nil => simp [setA]
  | cons hd tl ih =>
    by_cases hh : hd.1 = k
    · simp [setA, hh]
    · simp [setA, hh, ih]

/-- Claim C1: against the single stored object a=0,c=3, an Update with
newObj a=1,b=2, desiredCount 1 and patch=true returns 1, and the in-place
patch does produce the merged map a=1,c=3,b=2 — but the final
`db.Objects = db.Objects[count:]` truncation of `SchemaDB.Update` then
drops that very object, leaving the stored list empty, contradicting the
claim that the updated object is still present under the name. -/
theorem update_patch_drops_updated_object :
    DB.update dbUpdateEx "Pet" (.obj [("a", .int 0)]) MatchAllFields
        [("a", .int 1), ("b", .int 2)] 1 true
      = (1, ⟨[("Pet", ⟨"Pet", schemaObjEx, []⟩)], swEmpty⟩)
    ∧ (updateLoop MatchAllFields (.obj [("a", .int 0)]) [("a", .int 1), ("b", .int 2)]
        1 true 1 0 [objAC] 0).1
      = [.obj [("a", .int 1), ("c", .int 3), ("b", .int 2)]] := by
  exact ⟨rfl, rfl⟩

/-- Claim C2: deleting with desiredCount -1 from a list of two matching
objects stops after the first match, because `count >= desiredCount` is
`1 >= -1`: it returns 1 — not the number of matching objects, 2 — and the
surviving list still contains the matching object `objId2`, contradicting
the claim that exactly the matching objects are removed. -/
theorem delete_all_stops_after_first_match :
    DB.delete dbTwoEx "Pet" (.obj []) MatchAllFields (-1)
      = (1, ⟨[("Pet", ⟨"Pet", schemaObjEx, [objId2]⟩)], swEmpty⟩) := by
  exact rfl

/-- Claim C3: finding with desiredCount -1 over two matching stored objects
returns only the first match, because `len(result) >= desiredCount` is
`1 >= -1`, contradicting the claim that -1 returns all matches. -/
theorem find_all_returns_only_first_match :
    DB.find dbTwoEx "Pet" (.obj []) MatchAllFields (-1) = [objId1] := by
  exact rfl

/-- Claim C5: matching the empty object against a schema that requires the
field "a" hits the literal `panic("")` of `Schema.MatchesMap` (db.go line
87) instead of returning false: `Matches` is not total on objects lacking
a required key, contradicting the claim that a mismatch is surfaced
without aborting the process. -/
theorem matches_missing_required_field_panics :
    matchesV swEmpty 2 schemaRequiredA (.obj []) = .panicked
    ∧ matchesMap swEmpty 1 schemaRequiredA [] = .panicked := by
  exact ⟨rfl, rfl⟩

/-- Claim C4, counterexample to the claim as stated: inserting a
mismatching object under a missing name returns the mismatch error, yet
the DB is not left unchanged — the lazy creation of the SchemaDB happens
before the `Matches` check, so the schemas map gains an entry even though
the insert is rejected. -/
theorem insert_mismatch_changes_db :
    (DB.insert dbEmptyEx 1 "Pet" schemaObjEx (.str "x")).1 = some .mismatch
    ∧ (DB.insert dbEmptyEx 1 "Pet" schemaObjEx (.str "x")).2 ≠ dbEmptyEx := by
  refine ⟨rfl, ?_⟩
  intro h
  have h1 : (DB.insert dbEmptyEx 1 "Pet" schemaObjEx (.str "x")).2.schemas.length = 1 := rfl
  rw [h] at h1
  simp [dbEmptyEx] at h1

/-- Claim C4 (amended): `DB.Insert` rejects with the mismatch error exactly
when `Matches` on the effective schema answers false and succeeds exactly
when it answers true; every rejection leaves all stored object lists
unchanged (though a missing SchemaDB entry is still lazily created, so the
schema map itself may gain an empty entry); a success appends the object
under the given name and touches no other list; afterwards the name is
bound to the effective schema; and a successful insert preserves the
invariant that every stored object matches the schema it is stored
under. -/
theorem insert_invariant (db : DB) (fuel : Nat) (name : String) (schema : Schema) (obj : Value) :
    ((DB.insert db fuel name schema obj).1 = some .mismatch
      ↔ matchesV db.swagger fuel (effectiveSchema db name schema) obj = .val false)
    ∧ ((DB.insert db fuel name schema obj).1 = none
      ↔ matchesV db.swagger fuel (effectiveSchema db name schema) obj = .val true)
    ∧ ((DB.insert db fuel name schema obj).1 ≠ none →
        ∀ n, storedObjects (DB.insert db fuel name schema obj).2 n = storedObjects db n)
    ∧ ((DB.insert db fuel name schema obj).1 = none →
        storedObjects (DB.insert db fuel name schema obj).2 name
          = storedObjects db name ++ [obj]
        ∧ ∀ n, n ≠ name →
            storedObjects (DB.insert db fuel name schema obj).2 n = storedObjects db n)
    ∧ DB.getSchema (DB.insert db fuel name schema obj).2 name
        = some (effectiveSchema db name schema)
    ∧ ((DB.insert db fuel name schema obj).1 = none →
        (∀ n sdb, lookupA db.schemas n = some sdb →
          ∀ o ∈ sdb.objects, matchesV db.swagger fuel sdb.schema o = .val true) →
        ∀ n sdb, lookupA (DB.insert db fuel name schema obj).2.schemas n = some sdb →
          ∀ o ∈ sdb.objects, matchesV db.swagger fuel sdb.schema o = .val true) := by
  cases hdb : lookupA db.schemas name with
  | none =>
    have heff : effectiveSchema db name schema = schema := by
      simp [effectiveSchema, hdb]
    cases hm : matchesV db.swagger fuel schema obj with
    | val b =>
      cases b with
      | true =>
        have hr : DB.insert db fuel name schema obj
            = (none, ⟨setA db.schemas name ⟨name, schema, [obj]⟩, db.swagger⟩) := by
          simp [DB.insert, hdb, hm, SchemaDB.insert, setA_setA]
        refine ⟨?_, ?_, ?_, ?_, ?_, ?_⟩
        · simp [hr, heff, hm]
        · simp [hr, heff, hm]
        · simp [hr]
        · intro _
          constructor
          · simp [hr, storedObjects, lookupA_setA_self, hdb]
          · intro n hn
            simp [hr, storedObjects, lookupA_setA_ne _ _ _ _ (Ne.symm hn)]
        · simp [hr, DB.getSchema, lookupA_setA_self, heff]
        · intro _ hinv n sdb hn
          by_cases hcase : n = name
          · subst hcase
            rw [hr] at hn
            simp only [lookupA_setA_self] at hn
            cases hn
            intro o ho
            simp only [List.mem_singleton] at ho
            subst ho
            exact hm
          · rw [hr] at hn
            simp only at hn
            rw [lookupA_setA_ne _ _ _ _ (fun h => hcase h.symm)] at hn
            exact hinv n sdb hn
      | false =>
        have hr : DB.insert db fuel name schema obj
            = (some .mismatch, ⟨setA db.schemas name ⟨name, schema, []⟩, db.swagger⟩) := by
          simp [DB.insert, hdb, hm]
        refine ⟨?_, ?_, ?_, ?_, ?_, ?_⟩
        · simp [hr, heff, hm]
        · simp [hr, heff, hm]
        · intro _ n
          by_cases hcase : n = name
          · subst hcase
            simp [hr, storedObjects, lookupA_setA_self, hdb]
          · simp [hr, storedObjects, lookupA_setA_ne _ _ _ _ (fun h => hcase h.symm)]
        · intro h
          simp [hr] at h
        · simp [hr, DB.getSchema, lookupA_setA_self, heff]
        · intro h
          simp [hr] at h
    | panicked =>
      have hr : DB.insert db fuel name schema obj
          = (some .panicked, ⟨setA db.schemas name ⟨name, schema, []⟩, db.swagger⟩) := by
        simp [DB.insert, hdb, hm]
      refine ⟨?_, ?_, ?_, ?_, ?_, ?_⟩
      · simp [hr, heff, hm]
      · simp [hr, heff, hm]
      · intro _ n
        by_cases hcase : n = name
        · subst hcase
          simp [hr, storedObjects, lookupA_setA_self, hdb]
        · simp [hr, storedObjects, lookupA_setA_ne _ _ _ _ (fun h => hcase h.symm)]
      · intro h
        simp [hr] at h
      · simp [hr, DB.getSchema, lookupA_setA_self, heff]
      · intro h
        simp [hr] at h
    | fuelOut =>
      have hr : DB.insert db fuel name schema obj
          = (some .fuelOut, ⟨setA db.schemas name ⟨name, schema, []⟩, db.swagger⟩) := by
        simp [DB.insert, hdb, hm]
      refine ⟨?_, ?_, ?_, ?_, ?_, ?_⟩
      · simp [hr, heff, hm]
      · simp [hr, heff, hm]
      · intro _ n
        by_cases hcase : n = name
        · subst hcase
          simp [hr, storedObjects, lookupA_setA_self, hdb]
        · simp [hr, storedObjects, lookupA_setA_ne _ _ _ _ (fun h => hcase h.symm)]
      · intro h
        simp [hr] at h
      · simp [hr, DB.getSchema, lookupA_setA_self, heff]
      · intro h
        simp [hr] at h
  | some sdb0 =>
    have heff : effectiveSchema db name schema = sdb0.schema := by
      simp [effectiveSchema, hdb]
    cases hm : matchesV db.swagger fuel sdb0.schema obj with
    | val b =>
      cases b with
      | true =>
        have hr : DB.insert db fuel name schema obj
            = (none, ⟨setA db.schemas name (sdb0.insert obj), db.swagger⟩) := by
          simp [DB.insert, hdb, hm]
        refine ⟨?_, ?_, ?_, ?_, ?_, ?_⟩
        · simp [hr, heff, hm]
        · simp [hr, heff, hm]
        · simp [hr]
        · intro _
          constructor
          · simp [hr, storedObjects, lookupA_setA_self, hdb, SchemaDB.insert]
          · intro n hn
            simp [hr, storedObjects, lookupA_setA_ne _ _ _ _ (Ne.symm hn)]
        · have hgs : lookupA db.schemas name = some sdb0 := hdb
          simp [hr, DB.getSchema, lookupA_setA_self, heff, SchemaDB.insert]
        · intro _ hinv n sdb hn
          by_cases hcase : n = name
          · subst hcase
            rw [hr] at hn
            simp only [lookupA_setA_self] at hn
            cases hn
            intro o ho
            simp only [SchemaDB.insert, List.mem_append, List.mem_singleton] at ho
            cases ho with
            | inl hold => exact hinv _ sdb0 hdb o hold
            | inr hnew =>
              subst hnew
              exact hm
          · rw [hr] at hn
            simp only at hn
            rw [lookupA_setA_ne _ _ _ _ (fun h => hcase h.symm)] at hn
            exact hinv n sdb hn
      | false =>
        have hr : DB.insert db fuel name schema obj
            = (some .mismatch, ⟨db.schemas, db.swagger⟩) := by
          simp [DB.insert, hdb, hm]
        refine ⟨?_, ?_, ?_, ?_, ?_, ?_⟩
        · simp [hr, heff, hm]
        · simp [hr, heff, hm]
        · intro _ n
          simp [hr, storedObjects]
        · intro h
          simp [hr] at h
        · simp [hr, DB.getSchema, hdb, heff]
        · intro h
          simp [hr] at h
    | panicked =>
      have hr : DB.insert db fuel name schema obj
          = (some .panicked, ⟨db.schemas, db.swagger⟩) := by
        simp [DB.insert, hdb, hm]
      refine ⟨?_, ?_, ?_, ?_, ?_, ?_⟩
      · simp [hr, heff, hm]
      · simp [hr, heff, hm]
      · intro _ n
        simp [hr, storedObjects]
      · intro h
        simp [hr] at h
      · simp [hr, DB.getSchema, hdb, heff]
      · intro h
        simp [hr] at h
    | fuelOut =>
      have hr : DB.insert db fuel name schema obj
          = (some .fuelOut, ⟨db.schemas, db.swagger⟩) := by
        simp [DB.insert, hdb, hm]
      refine ⟨?_, ?_, ?_, ?_, ?_, ?_⟩
      · simp [hr, heff, hm]
      · simp [hr, heff, hm]
      · intro _ n
        simp [hr, storedObjects]
      · intro h
        simp [hr] at h
      · simp [hr, DB.getSchema, hdb, heff]
      · intro h
        simp [hr] at h

/-- Witness for the amended C4 theorem at a concrete input: inserting the
empty object (which matches the unconstrained object schema) into the
empty DB succeeds and stores exactly that object under "Pet". -/
theorem insert_invariant_witness :
    storedObjects (DB.insert dbEmptyEx 1 "Pet" schemaObjEx (.obj [])).2 "Pet"
      = storedObjects dbEmptyEx "Pet" ++ [.obj []] :=
  ((insert_invariant dbEmptyEx 1 "Pet" schemaObjEx (.obj [])).2.2.2.1 rfl).1

/-- Claim C10: `Matches(schema, nil)` consults only the schema's own `Type`
list — it returns true iff that list contains "null" — and since the nil
check precedes `$ref` resolution, a pure `$ref` schema (whose own type
list is empty) never matches a nil value, whatever its referred
definition says. -/
theorem matches_nil_ignores_ref (sw : Swagger) (fuel : Nat) (s : Schema) :
    matchesV sw (fuel + 1) s .null = .val (s.type.contains "null")
    ∧ ∀ (r : String) (req : List String) (props : List (String × Schema))
        (hi : Bool) (is : Option Schema) (iss : List Schema),
        matchesV sw (fuel + 1) (.mk [] (some r) req props hi is iss) .null = .val false := by
  constructor
  · cases s with
    | mk t r req props hi is iss => rfl
  · intro r req props hi is iss
    rfl

/-- Claim C6: recording a value for C.p when the last Comparison for class
C already has p set in the map selected by the operation (here: a put,
selecting the new map) leaves the ledger unchanged — the list does not
grow and the fresh Comparison is lost — because the `newComp :=` short
declaration in the collision branch of `SetForOp` shadows the variable the
function returns, so `AddBasicComparison` never receives the fresh
Comparison it would append.  The second conjunct pins the root cause:
`SetForOp` returns nil even on a collision. -/
theorem addBasicComparison_drops_fresh_comparison :
    Test.addBasicComparison testC6 swEmpty (some ⟨"C", "p", ""⟩) (some ⟨"formData"⟩) (.int 2)
      = testC6
    ∧ (Comparison.setForOp compNewP1 MethodPut "p" (.int 2)).2 = none := by
  exact ⟨rfl, rfl⟩

/-- Claim C7: with `expect.status` set, the literal "fail" makes the status
check pass exactly when the HTTP call failed, and an integer value exactly
when it equals the actual status; when the status check passes and
`expect.body` is given, the fragment returns the EXPECT error unless the
decoded body is deeply structurally equal to it; and with `expect.body`
absent the body comparison never fails, so a passing status check alone
passes. -/
theorem processResultExpect_spec (e : List (String × Value)) (status : Int)
    (respTag : Option MeqaTag) (resultObj : Option Value) :
    (goMapRead (some e) ExpectStatus = some (.str "fail") →
      (processResultExpect (some e) status respTag resultObj ≠ .failedStatus
        ↔ respSuccess status respTag = false))
    ∧ (∀ n : Int, goMapRead (some e) ExpectStatus = some (.int n) →
      (processResultExpect (some e) status respTag resultObj ≠ .failedStatus
        ↔ n = status))
    ∧ (∀ es b, goMapRead (some e) ExpectStatus = some es →
        goMapRead (some e) ExpectBody = some b →
        processResultExpect (some e) status respTag resultObj ≠ .failedStatus →
        (processResultExpect (some e) status respTag resultObj = .passed
          ↔ interfaceEquals (some b) resultObj = true))
    ∧ (∀ es, goMapRead (some e) ExpectStatus = some es →
        goMapRead (some e) ExpectBody = none →
        processResultExpect (some e) status respTag resultObj ≠ .failedBody) := by
  refine ⟨?_, ?_, ?_, ?_⟩
  · intro hst
    unfold processResultExpect
    rw [hst]
    cases hs : respSuccess status respTag with
    | true =>
      simp [expectTestSuccess, hs]
    | false =>
      cases hIE : interfaceEquals (goMapRead (some e) ExpectBody) resultObj <;>
        simp [expectTestSuccess, hs, hIE]
  · intro n hst
    unfold processResultExpect
    rw [hst]
    by_cases hn : n = status
    · cases hIE : interfaceEquals (goMapRead (some e) ExpectBody) resultObj <;>
        simp [expectTestSuccess, hn, hIE]
    · simp [expectTestSuccess, hn]
  · intro es b hst hb hpass
    unfold processResultExpect at hpass ⊢
    rw [hst] at hpass ⊢
    simp only [hb] at hpass ⊢
    cases hts : expectTestSuccess es status respTag with
    | false => simp [hts] at hpass
    | true =>
      simp only [hts] at hpass ⊢
      cases hIE : interfaceEquals (some b) resultObj <;> simp [hIE]
  · intro es hst hb
    unfold processResultExpect
    rw [hst]
    simp only [hb]
    cases hts : expectTestSuccess es status respTag <;> simp [hts, interfaceEquals]

/-- Witness for C7 at a concrete input: expecting "fail" with no expected
body against a 404 response with no fail tag, the fragment does not return
the status EXPECT error. -/
theorem processResultExpect_spec_witness :
    processResultExpect (some [(ExpectStatus, .str "fail")]) 404 none none ≠ .failedStatus :=
  ((processResultExpect_spec [(ExpectStatus, .str "fail")] 404 none none).1 rfl).mpr rfl

theorem goInt64_mono (a b : ℚ) (h : a ≤ b) : goInt64 a ≤ goInt64 b := by
  unfold goInt64
  by_cases ha : 0 ≤ a
  · have hb : 0 ≤ b := le_trans ha h
    simp only [if_pos ha, if_pos hb]
    exact Int.floor_mono h
  · by_cases hb : 0 ≤ b
    · simp only [if_neg ha, if_pos hb]
      exact le_trans (Int.ceil_le.mpr (by exact_mod_cast le_of_lt (lt_of_not_ge ha)))
        (Int.le_floor.mpr (by exact_mod_cast hb))
    · simp only [if_neg ha, if_neg hb]
      exact Int.ceil_mono h

theorem goInt64_sub_one_lt (q : ℚ) : q - 1 < (goInt64 q : ℚ) := by
  unfold goInt64
  by_cases hq : 0 ≤ q
  · simp only [if_pos hq]
    exact Int.sub_one_lt_floor q
  · simp only [if_neg hq]
    have h := Int.le_ceil q
    linarith

theorem generateFloat_ge_realMin (s : NumBounds) (m r f : ℚ)
    (hmin : s.minimum = some m) (hr : 0 ≤ r)
    (hok : generateFloat s r = .ok f) : realMin s ≤ f := by
  unfold generateFloat at hok
  by_cases hcmp : realMin s ≥ realMax s
  · rw [if_pos hcmp, hmin] at hok
    simp only [Except.ok.injEq] at hok
    have habs : 0 ≤ |realMin s| := abs_nonneg _
    nlinarith [mul_nonneg hr habs]
  · rw [if_neg hcmp] at hok
    simp only [Except.ok.injEq] at hok
    have hlt : realMin s < realMax s := lt_of_not_ge hcmp
    nlinarith [mul_nonneg hr (le_of_lt (sub_pos.mpr hlt))]

/-- Claim C9: every successful integer generation from a schema with
`minimum = m` and `exclusiveMinimum = true` is strictly greater than `m`:
the drawn float is at least `m + 0.01`, truncation toward zero is
monotone, and the final `i <= int64(minimum)` bump pushes a result that
landed at the truncated minimum one past it. -/
theorem generateInt_gt_exclusive_min (s : NumBounds) (m r : ℚ) (i : ℤ)
    (hmin : s.minimum = some m) (hex : s.exclusiveMinimum = true)
    (hr0 : 0 ≤ r) (hr1 : r < 1)
    (hok : generateInt s r = .ok i) : m < (i : ℚ) := by
  unfold generateInt at hok
  have hguard : (s.maximum.isNone && s.minimum.isNone) = false := by
    simp [hmin]
  simp only [hguard, Bool.false_eq_true, if_false] at hok
  cases hgf : generateFloat s r with
  | error e => rw [hgf] at hok; cases hok
  | ok f =>
    rw [hgf] at hok
    simp only [hmin, Except.ok.injEq] at hok
    have hfge : realMin s ≤ f := generateFloat_ge_realMin s m r f hmin hr0 hgf
    have hrm : realMin s = m + 1/100 := by simp [realMin, hmin, hex]
    have hmf : m ≤ f := by rw [hrm] at hfge; linarith
    have hmono : goInt64 m ≤ goInt64 f := goInt64_mono m f hmf
    have hlow : m - 1 < (goInt64 m : ℚ) := goInt64_sub_one_lt m
    by_cases hle : goInt64 f ≤ goInt64 m
    · rw [if_pos hle] at hok
      have heq : goInt64 f = goInt64 m := le_antisymm hle hmono
      rw [← hok, heq]
      push_cast
      linarith
    · rw [if_neg hle] at hok
      have hgt : goInt64 m + 1 ≤ goInt64 f := lt_of_not_ge hle
      rw [← hok]
      have : (goInt64 m : ℚ) + 1 ≤ (goInt64 f : ℚ) := by exact_mod_cast hgt
      linarith

/-- Witness for C9: with minimum 5, no maximum, exclusive minimum and the
draw `r = 0`, the source generates 6, which is indeed greater than 5. -/
theorem generateInt_gt_exclusive_min_witness :
    (5 : ℚ) < ((6 : ℤ) : ℚ) :=
  generateInt_gt_exclusive_min ⟨some 5, none, true, false⟩ 5 0 6 rfl rfl
    (by norm_num) (by norm_num)
    (by norm_num [generateInt, generateFloat, realMin, realMax, goInt64])

theorem resolveParamValue_str (h : List Test) (s : String) :
    resolveParamValue h (.str s) = (stringParamsResolveWithHistory s h).getD (.str s) := by
  unfold resolveParamValue
  cases hr : stringParamsResolveWithHistory s h <;> simp [hr]

theorem lookupA_mapResolve (h : List Test) (m : List (String × Value)) (k : String) :
    lookupA (mapParamsResolveWithHistory m h) k
      = (lookupA m k).map (resolveParamValue h) := by
  induction m with
  | nil => rfl
  | cons hd tl ih =>
    by_cases hh : hd.1 = k
    · simp [mapParamsResolveWithHistory, lookupA, hh]
    · simpa [mapParamsResolveWithHistory, lookupA, hh] using ih

theorem goIndexOf_append_cons (l1 l2 : List Char) (c : Char) (hc : c ∉ l1) :
    goIndexOf (l1 ++ c :: l2) c = (l1.length : Int) := by
  induction l1 with
  | nil => simp [goIndexOf]
  | cons x xs ih =>
    have hx : ¬(x = c) := fun he => hc (by simp [he])
    have hxs : c ∉ xs := fun hm => hc (List.mem_cons_of_mem _ hm)
    have hr := ih hxs
    simp only [List.cons_append, goIndexOf, hx, if_false, List.append_eq, hr]
    have hge : ¬((xs.length : Int) < 0) := by omega
    simp only [hge, if_false, List.length_cons]
    push_cast
    ring

theorem goSplitAux_no_sep (sep : Char) (l : List Char) (hl : sep ∉ l) :
    ∀ acc, goSplitAux sep l acc = [acc.reverse ++ l] := by
  induction l with
  | nil => intro acc; simp [goSplitAux]
  | cons x xs ih =>
    intro acc
    have hx : ¬(x = sep) := fun he => hl (by simp [he])
    have hxs : sep ∉ xs := fun hm => hl (List.mem_cons_of_mem _ hm)
    simp only [goSplitAux, hx, if_false, ih hxs]
    simp

theorem goSplitAux_sep_middle (sep : Char) (a b : List Char) (ha : sep ∉ a) :
    ∀ acc, goSplitAux sep (a ++ sep :: b) acc = (acc.reverse ++ a) :: goSplitAux sep b [] := by
  induction a with
  | nil => intro acc; simp [goSplitAux]
  | cons x xs ih =>
    intro acc
    have hx : ¬(x = sep) := fun he => ha (by simp [he])
    have hxs : sep ∉ xs := fun hm => ha (List.mem_cons_of_mem _ hm)
    simp only [List.cons_append, goSplitAux, hx, if_false, List.append_eq]
    rw [ih hxs]
    simp

theorem goSplit_two (sep : Char) (a b : List Char) (ha : sep ∉ a) (hb : sep ∉ b) :
    goSplit sep (a ++ sep :: b) = [a, b] := by
  unfold goSplit
  rw [goSplitAux_sep_middle sep a b ha, goSplitAux_no_sep sep b hb]
  simp

theorem stringResolve_marker (h : List Test) (a b : String)
    (ha1 : '>' ∉ a.data) (ha2 : '.' ∉ a.data)
    (hb1 : '>' ∉ b.data) (hb2 : '.' ∉ b.data) :
    stringParamsResolveWithHistory ("<" ++ a ++ "." ++ b ++ ">") h
      = match getTest h a with
        | some st => st.getParamFromComparison b "any"
        | none => none := by
  have hX : '>' ∉ (a.data ++ '.' :: b.data) := by
    intro hm
    rcases List.mem_append.mp hm with hma | hmb
    · exact ha1 hma
    · rcases List.mem_cons.mp hmb with he | hmb2
      · exact absurd he (by decide)
      · exact hb1 hmb2
  have hXfull : '>' ∉ ('<' :: (a.data ++ '.' :: b.data)) := by
    intro hm
    rcases List.mem_cons.mp hm with he | hm2
    · exact absurd he (by decide)
    · exact hX hm2
  have hd : ("<" ++ a ++ "." ++ b ++ ">").data
      = ('<' :: (a.data ++ '.' :: b.data)) ++ ['>'] := by
    simp [String.data_append]
  have hb0 : goIndexOf (('<' :: (a.data ++ '.' :: b.data)) ++ ['>']) '<' = 0 := by
    simp [List.cons_append, goIndexOf]
  have he0 : goIndexOf (('<' :: (a.data ++ '.' :: b.data)) ++ ['>']) '>'
      = ((a.data ++ '.' :: b.data).length : Int) + 1 := by
    have hgi := goIndexOf_append_cons ('<' :: (a.data ++ '.' :: b.data)) [] '>' hXfull
    simpa [List.length_cons] using hgi
  have hslice : goSlice (('<' :: (a.data ++ '.' :: b.data)) ++ ['>']) (0 + 1)
      (((a.data ++ '.' :: b.data).length : Int) + 1) = a.data ++ '.' :: b.data := by
    unfold goSlice
    have h1 : ((0 : Int) + 1).toNat = 1 := by norm_num
    have h2 : ((((a.data ++ '.' :: b.data).length : Int) + 1) - (0 + 1)).toNat
        = (a.data ++ '.' :: b.data).length := by omega
    rw [h1, h2]
    simp only [List.cons_append, List.drop_succ_cons, List.drop_zero]
    exact List.take_left _ _
  unfold stringParamsResolveWithHistory
  rw [hd]
  simp only [hb0, he0]
  have hpos : ((0 : Int) < ((a.data ++ '.' :: b.data).length : Int) + 1) := by positivity
  rw [if_pos hpos]
  rw [hslice, goSplit_two '.' a.data b.data ha2 hb2]

theorem resolveHistory_bags (t : Test) (h : List Test) :
    (Test.resolveHistoryParameters t h).pathParams = mapParamsResolveWithHistory t.pathParams h
    ∧ (Test.resolveHistoryParameters t h).queryParams = mapParamsResolveWithHistory t.queryParams h
    ∧ (Test.resolveHistoryParameters t h).headerParams = mapParamsResolveWithHistory t.headerParams h
    ∧ (Test.resolveHistoryParameters t h).formParams = mapParamsResolveWithHistory t.formParams h := by
  unfold Test.resolveHistoryParameters
  cases hb : t.bodyParams with
  | none => exact ⟨rfl, rfl, rfl, rfl⟩
  | some v =>
    cases v with
    | null => exact ⟨rfl, rfl, rfl, rfl⟩
    | bool b => exact ⟨rfl, rfl, rfl, rfl⟩
    | int n => exact ⟨rfl, rfl, rfl, rfl⟩
    | num q => exact ⟨rfl, rfl, rfl, rfl⟩
    | str s =>
      cases hr : stringParamsResolveWithHistory s h <;> simp [hr]
    | arr a2 => exact ⟨rfl, rfl, rfl, rfl⟩
    | obj m => exact ⟨rfl, rfl, rfl, rfl⟩

theorem resolveHistory_body_obj (t : Test) (h : List Test) (m : List (String × Value))
    (hb : t.bodyParams = some (.obj m)) :
    (Test.resolveHistoryParameters t h).bodyParams
      = some (.obj (mapParamsResolveWithHistory m h)) := by
  unfold Test.resolveHistoryParameters
  rw [hb]

theorem resolveHistory_body_arr (t : Test) (h : List Test) (a : List Value)
    (hb : t.bodyParams = some (.arr a)) :
    (Test.resolveHistoryParameters t h).bodyParams
      = some (.arr (arrayParamsResolveWithHistory a h)) := by
  unfold Test.resolveHistoryParameters
  rw [hb]

theorem resolveHistory_body_str (t : Test) (h : List Test) (s : String)
    (hb : t.bodyParams = some (.str s)) :
    (Test.resolveHistoryParameters t h).bodyParams
      = some ((stringParamsResolveWithHistory s h).getD (.str s)) := by
  unfold Test.resolveHistoryParameters
  rw [hb]
  cases hr : stringParamsResolveWithHistory s h <;> simp [hr]

theorem compParamHit_new_before_old (nm : String) (comp : Comparison) :
    compParamHit nm "any" comp
      = match goMapRead comp.new nm with
        | some v => some v
        | none => goMapRead comp.old nm := by
  unfold compParamHit
  cases hn : goMapRead comp.new nm <;> cases ho : goMapRead comp.old nm <;> simp [hn, ho]

theorem lookupA_mapResolve_str (h : List Test) (m : List (String × Value)) (k s : String)
    (hk : lookupA m k = some (.str s)) :
    lookupA (mapParamsResolveWithHistory m h) k
      = some ((stringParamsResolveWithHistory s h).getD (.str s)) := by
  rw [lookupA_mapResolve, hk, Option.map_some', resolveParamValue_str]

/-- Claim C8, counterexample to the claim as stated: the reference
"<s.f>" is perfectly resolvable against the history (second conjunct), yet
sitting inside a map nested inside the body map it is left untouched — the
resolution walks only one level into the body, so "every string value ...
including nested maps and arrays" over-claims. -/
theorem resolveHistory_misses_nested_string :
    Test.resolveHistoryParameters testNested histEx = testNested
    ∧ stringParamsResolveWithHistory "<s.f>" histEx = some (.int 42) := by
  exact ⟨rfl, rfl⟩

/-- Claim C8 (amended): a string value of the exact form "<step.field>" is
replaced before dispatch by the value of `field` from the named prior
step's comparison ledger — searched comparison by comparison, new map
before old map — and left unchanged when the step is missing or the field
unresolved; this applies to the top-level values of the four parameter
bags, the top-level values of a map body, the string elements and
map-element values of an array body, and a string body (strings nested
deeper are not rewritten, see the counterexample). -/
theorem resolveHistory_spec (h : List Test) (t : Test) :
    (∀ k s, lookupA t.pathParams k = some (.str s) →
        lookupA (Test.resolveHistoryParameters t h).pathParams k
          = some ((stringParamsResolveWithHistory s h).getD (.str s)))
    ∧ (∀ k s, lookupA t.queryParams k = some (.str s) →
        lookupA (Test.resolveHistoryParameters t h).queryParams k
          = some ((stringParamsResolveWithHistory s h).getD (.str s)))
    ∧ (∀ k s, lookupA t.headerParams k = some (.str s) →
        lookupA (Test.resolveHistoryParameters t h).headerParams k
          = some ((stringParamsResolveWithHistory s h).getD (.str s)))
    ∧ (∀ k s, lookupA t.formParams k = some (.str s) →
        lookupA (Test.resolveHistoryParameters t h).formParams k
          = some ((stringParamsResolveWithHistory s h).getD (.str s)))
    ∧ (∀ m k s, t.bodyParams = some (.obj m) → lookupA m k = some (.str s) →
        (Test.resolveHistoryParameters t h).bodyParams
          = some (.obj (mapParamsResolveWithHistory m h))
        ∧ lookupA (mapParamsResolveWithHistory m h) k
          = some ((stringParamsResolveWithHistory s h).getD (.str s)))
    ∧ (∀ (a : List Value) (i : Nat) (s : String), t.bodyParams = some (.arr a) →
        a[i]? = some (Value.str s) →
        (Test.resolveHistoryParameters t h).bodyParams
          = some (.arr (arrayParamsResolveWithHistory a h))
        ∧ (arrayParamsResolveWithHistory a h)[i]?
          = some ((stringParamsResolveWithHistory s h).getD (.str s)))
    ∧ (∀ (a : List Value) (i : Nat) (m : List (String × Value)) (k s : String),
        t.bodyParams = some (.arr a) → a[i]? = some (Value.obj m) →
        lookupA m k = some (.str s) →
        (arrayParamsResolveWithHistory a h)[i]? = some (.obj (mapParamsResolveWithHistory m h))
        ∧ lookupA (mapParamsResolveWithHistory m h) k
          = some ((stringParamsResolveWithHistory s h).getD (.str s)))
    ∧ (∀ s, t.bodyParams = some (.str s) →
        (Test.resolveHistoryParameters t h).bodyParams
          = some ((stringParamsResolveWithHistory s h).getD (.str s)))
    ∧ (∀ a b : String, '>' ∉ a.data → '.' ∉ a.data → '>' ∉ b.data → '.' ∉ b.data →
        stringParamsResolveWithHistory ("<" ++ a ++ "." ++ b ++ ">") h
          = match getTest h a with
            | some st => st.getParamFromComparison b "any"
            | none => none)
    ∧ (∀ nm comp, compParamHit nm "any" comp
        = match goMapRead comp.new nm with
          | some v => some v
          | none => goMapRead comp.old nm) := by
  refine ⟨?_, ?_, ?_, ?_, ?_, ?_, ?_, ?_, ?_, ?_⟩
  · intro k s hk
    rw [(resolveHistory_bags t h).1]
    exact lookupA_mapResolve_str h t.pathParams k s hk
  · intro k s hk
    rw [(resolveHistory_bags t h).2.1]
    exact lookupA_mapResolve_str h t.queryParams k s hk
  · intro k s hk
    rw [(resolveHistory_bags t h).2.2.1]
    exact lookupA_mapResolve_str h t.headerParams k s hk
  · intro k s hk
    rw [(resolveHistory_bags t h).2.2.2]
    exact lookupA_mapResolve_str h t.formParams k s hk
  · intro m k s hb hk
    exact ⟨resolveHistory_body_obj t h m hb, lookupA_mapResolve_str h m k s hk⟩
  · intro a i s hb hi
    refine ⟨resolveHistory_body_arr t h a hb, ?_⟩
    unfold arrayParamsResolveWithHistory
    rw [List.getElem?_map, hi, Option.map_some']
    rw [resolveParamValue_str]
  · intro a i m k s hb hi hk
    refine ⟨?_, lookupA_mapResolve_str h m k s hk⟩
    unfold arrayParamsResolveWithHistory
    rw [List.getElem?_map, hi, Option.map_some']
  · intro s hb
    exact resolveHistory_body_str t h s hb
  · intro a b ha1 ha2 hb1 hb2
    exact stringResolve_marker h a b ha1 ha2 hb1 hb2
  · intro nm comp
    exact compParamHit_new_before_old nm comp

/-- Witness for the amended C8 theorem at a concrete input: the query
parameter "id" holding "<s.f>" resolves, and both the bag rewriting and
the marker parsing produce the ledger value 42 of step "s". -/
theorem resolveHistory_spec_witness :
    lookupA (Test.resolveHistoryParameters testQueryRef histEx).queryParams "id"
      = some ((stringParamsResolveWithHistory "<s.f>" histEx).getD (.str "<s.f>"))
    ∧ stringParamsResolveWithHistory ("<" ++ "s" ++ "." ++ "f" ++ ">") histEx
      = match getTest histEx "s" with
        | some st => st.getParamFromComparison "f" "any"
        | none => none :=
  ⟨(resolveHistory_spec histEx testQueryRef).2.1 "id" "<s.f>" rfl,
   (resolveHistory_spec histEx testQueryRef).2.2.2.2.2.2.2.2.1 "s" "f"
     (by decide) (by decide) (by decide) (by decide)⟩

end Meqa
